import Mathlib

/-!
# Verification of the wa_hot trip-planning engine

Shallow embedding of `src/static/js/conditions-feed.js` (class `TripPlanner`).

Modelling conventions:
* JS strings are modelled as `List Char` (`JStr`); `URLSearchParams`
  percent-encoding round-trips values exactly, so URL parameters are carried
  as decoded strings.
* JS numbers are modelled as `ℚ` wherever the code only stores, compares,
  serializes or does exact decimal arithmetic on them.  The haversine
  distance (`calculateDistance`) uses transcendental functions and is
  modelled over `ℝ`.  A JS `NaN` produced by `parseFloat` is modelled as
  `none : Option ℚ` (it is falsy exactly like `null`, which is what every
  consumer in the source checks).
* DOM / Leaflet rendering calls are modelled only through the fields of
  `TripState` they mutate (`routeLayer`, `optimizedRoute`, ...).
* Network calls are modelled by passing the provider's (possible) response
  as an explicit argument; `none` is any of {missing credential, network
  failure, non-2xx, malformed body, timeout}, which the source treats alike.
-/

namespace WaHot

/-- A JS string, as a list of UTF-16-ish characters. -/
abbrev JStr := List Char

/-- A plain `{lat, lng}` coordinate object. -/
structure Coord where
  lat : ℚ
  lng : ℚ
deriving DecidableEq, Repr

/-- A raw Teable record, as consumed by `loadSprings` (display-only
attributes such as `temp_f`, `fee`, `description`, `access_type` are
carried nowhere by the claims and are elided). -/
structure SpringRecord where
  id : JStr
  name : JStr
  slug : JStr
  gps : JStr
deriving DecidableEq, Repr

/-- A catalog waypoint as built by `loadSprings` after GPS parsing has
succeeded (its `lat`/`lng` are real numbers, non-null and truthy). -/
structure Spring where
  id : JStr
  name : JStr
  slug : JStr
  lat : ℚ
  lng : ℚ
deriving DecidableEq, Repr

/-- An element of the `selectedSprings` array.  The source stores plain
spring objects there, but `optimizeRoute` assigns into it an array whose
head is the bare `startLocation` coordinate object, so the array is
heterogeneous; we model it with a sum. -/
inductive Stop where
  | startLoc (c : Coord)
  | spring (s : Spring)
deriving DecidableEq, Repr

/-- `{lat: s.lat, lng: s.lng}` of an element of `selectedSprings`. -/
def Stop.coord : Stop → Coord
  | .startLoc c => c
  | .spring s => ⟨s.lat, s.lng⟩

/-- `s.slug` of an element of `selectedSprings`; the bare start-location
object has no `slug` property (JS `undefined`), modelled as `none`. -/
def Stop.slug? : Stop → Option JStr
  | .startLoc _ => none
  | .spring s => some s.slug

/-- A directions-provider (Mapbox) route: display geometry plus aggregate
distance (meters) and duration (seconds). -/
structure MapRoute where
  geometry : List Coord
  distance : ℚ
  duration : ℚ
deriving DecidableEq, Repr

/-- What `drawRoute` leaves on the map: either the provider's geometry or
the dashed straight-segment polyline of `drawStraightLines`. -/
inductive RouteLayer where
  | geoJson (g : List Coord)
  | straight (pts : List Coord)
deriving DecidableEq, Repr

/-- The JSON record stored in the `hotSpringsTrip` localStorage slot.
`springs` holds `selectedSprings.map(s => s.slug)`; a bare start-location
element would serialize its missing slug as `null`, hence `Option JStr`. -/
structure SavedTrip where
  springs : List (Option JStr)
  startLocation : Option Coord
  createdAt : JStr
deriving DecidableEq, Repr

/-- The two query parameters of a share URL, already percent-decoded
(`URLSearchParams` encodes and decodes values losslessly).  `none` models
an absent parameter. -/
structure ShareURL where
  springs : Option JStr
  start : Option JStr
deriving DecidableEq, Repr

/-- The session state of the planner: the waypoint catalog plus the trip
state and the derived route result. -/
structure TripState where
  springs : List Spring
  selectedSprings : List Stop
  startLocation : Option Coord
  optimizedRoute : Option MapRoute
  routeLayer : Option RouteLayer
deriving DecidableEq, Repr

/-- The aggregate statistics object of `calculateRouteStats`
(`distance` is `(route.distance / 1609.34).toFixed(1)` as a number,
`duration` is `Math.round(route.duration / 60)`). -/
structure RouteStats where
  distance : ℚ
  duration : ℤ
deriving DecidableEq, Repr

/-! ## Decimal numbers: `parseFloat` and number-to-string -/

/-- Numeric value of a decimal digit character. -/
def digitVal (c : Char) : ℕ := c.toNat - 48

/-- Value of a most-significant-first digit string (Horner). -/
def natVal (l : JStr) : ℕ := l.foldl (fun a c => 10 * a + digitVal c) 0

/-- Decimal rendering of a natural number, as JS `Number::toString` renders
a non-negative integer. -/
def renderNat (n : ℕ) : JStr :=
  if n = 0 then ['0'] else (Nat.digits 10 n).reverse.map (fun d => Char.ofNat (48 + d))

/-- JS `parseFloat`, restricted to plain decimal notation (the strings this
program feeds it — regex captures over `[\d.-]` and its own serialized
coordinates — never use exponent notation or `Infinity`): optional
whitespace, optional sign, digits, optional `.` and digits; `none` is
`NaN` (no digit found). -/
def parseFloat (l : JStr) : Option ℚ :=
  let l0 := l.dropWhile (fun c => c.isWhitespace)
  let neg : Bool := l0.headD ' ' = '-'
  let l1 := if l0.headD ' ' = '-' ∨ l0.headD ' ' = '+' then l0.tail else l0
  let ip := l1.takeWhile Char.isDigit
  let r1 := l1.dropWhile Char.isDigit
  let fp : JStr := if r1.headD ' ' = '.' then r1.tail.takeWhile Char.isDigit else []
  if ip = [] ∧ fp = [] then none
  else
    let v : ℚ := (natVal ip : ℚ) + (natVal fp : ℚ) / 10 ^ fp.length
    some (if neg then -v else v)

/-- A decimal exponent `k` with `q.den ∣ 10 ^ k`, when one exists (every
number representable in JS — a binary fraction — has one). -/
def decExp (q : ℚ) : ℕ :=
  (((List.range (q.den + 1)).find? (fun k => decide (q.den ∣ 10 ^ k))).getD 0)

/-- JS `Number::toString` (template-literal `${x}`) for a number with a
finite decimal expansion, in the plain (non-exponent) regime: sign, integer
digits, and — when the decimal exponent is positive — a point and that many
fractional digits. -/
def renderQ (q : ℚ) : JStr :=
  let k := decExp q
  let m : ℕ := q.num.natAbs * (10 ^ k / q.den)
  let s := renderNat m
  let s' := List.replicate (k + 1 - s.length) '0' ++ s
  let body := s'.take (s'.length - k) ++ (if k = 0 then [] else '.' :: s'.drop (s'.length - k))
  (if q < 0 then ['-'] else []) ++ body

/-! ## Comma splitting and joining (`Array::join(',')` / `String::split(',')`) -/

/-- JS `str.split(',')`. -/
def splitComma : JStr → List JStr
  | [] => [[]]
  | c :: t =>
    if c = ',' then [] :: splitComma t
    else
      match splitComma t with
      | h :: r => (c :: h) :: r
      | [] => [[c]]

/-- JS `arr.join(',')`. -/
def joinComma : List JStr → JStr
  | [] => []
  | [x] => x
  | x :: y :: xs => x ++ ',' :: joinComma (y :: xs)

/-! ## The GPS regex `/([\d.-]+).*N.*([\d.-]+).*W/i`

A faithful backtracking matcher for this one pattern.  JS semantics:
the match is unanchored and leftmost (earliest start position wins); a
greedy quantifier tries its longest extent first and the engine backtracks
the most recent choice point first.  `.` matches any character (there are
no newlines in GPS fields), and the `i` flag makes `N`/`W` match their
lower-case forms. -/

/-- The character class `[\d.-]`. -/
def gpsClassChar (c : Char) : Bool := c.isDigit || c = '.' || c = '-'

/-- Case-insensitive `N`. -/
def isLetterN (c : Char) : Bool := c = 'N' || c = 'n'

/-- Case-insensitive `W`. -/
def isLetterW (c : Char) : Bool := c = 'W' || c = 'w'

/-- Match `([\d.-]+).*W` against `l` (choice points in JS engine order:
the leading `.*` longest-first, so the capture starts as late as possible;
then the capture itself longest-first; the trailing `.*` only needs some
`W` afterwards).  Returns the second capture group. -/
def matchGroup2W (l : JStr) : Option JStr :=
  ((List.range l.length).reverse).findSome? fun i =>
    if gpsClassChar (l.getD i ' ') then
      let rest := l.drop i
      let run := rest.takeWhile gpsClassChar
      ((List.range run.length).reverse).findSome? fun j =>
        let len := j + 1
        if (rest.drop len).any isLetterW then some (run.take len) else none
    else none

/-- Match `.*N.*([\d.-]+).*W` against `l`: the leading greedy `.*` means
the last feasible `N` is tried first. -/
def matchNTail (l : JStr) : Option JStr :=
  ((List.range l.length).reverse).findSome? fun i =>
    if isLetterN (l.getD i ' ') then matchGroup2W (l.drop (i + 1)) else none

/-- Match the whole pattern anchored at the start of `l`; the leading
capture `([\d.-]+)` is greedy.  (Shrinking it cannot matter for overall
success — `N` is not a class character — but the engine order is kept.) -/
def matchGPSAt (l : JStr) : Option (JStr × JStr) :=
  let run := l.takeWhile gpsClassChar
  ((List.range run.length).reverse).findSome? fun j =>
    let len := j + 1
    (matchNTail (l.drop len)).map fun g2 => (run.take len, g2)

/-- `gpsString.match(/([\d.-]+).*N.*([\d.-]+).*W/i)` — the two capture
groups of the leftmost match, if any. -/
def jsMatchGPS (l : JStr) : Option (JStr × JStr) :=
  (List.range l.length).findSome? fun p => matchGPSAt (l.drop p)

/-- `TripPlanner.parseGPS`: on a regex match, `lat` is `parseFloat` of the
first capture and `lng` is the negated `parseFloat` of the second
("Negative for West"); otherwise `{lat: null, lng: null}`.  `none` stands
for both `null` and `NaN`, which every consumer treats alike (falsy). -/
def parseGPS (gpsString : JStr) : Option ℚ × Option ℚ :=
  match jsMatchGPS gpsString with
  | some m => ((parseFloat m.1), (parseFloat m.2).map (fun x => -x))
  | none => (none, none)

/-- `TripPlanner.loadSprings`, from the fetched records to the in-memory
catalog: each record is mapped through `parseGPS` and the result is kept
only when both coordinates are truthy
(`.filter(spring => spring.lat && spring.lng)`). -/
def loadSprings (records : List SpringRecord) : List Spring :=
  records.filterMap fun r =>
    match parseGPS r.gps with
    | (some la, some ln) =>
      if la ≠ 0 ∧ ln ≠ 0 then some ⟨r.id, r.name, r.slug, la, ln⟩ else none
    | _ => none

/-! ## Great-circle distance (`calculateDistance`) -/

/-- JS `Math.atan2`. -/
noncomputable def atan2 (y x : ℝ) : ℝ :=
  if 0 < x then Real.arctan (y / x)
  else if x < 0 then
    (if 0 ≤ y then Real.arctan (y / x) + Real.pi else Real.arctan (y / x) - Real.pi)
  else
    (if 0 < y then Real.pi / 2 else if y < 0 then -(Real.pi / 2) else 0)

/-- `TripPlanner.calculateDistance`: haversine great-circle distance in
miles with Earth radius 3959 mi. -/
noncomputable def calculateDistance (lat1 lng1 lat2 lng2 : ℚ) : ℝ :=
  let R : ℝ := 3959
  let dLat : ℝ := ((lat2 : ℝ) - (lat1 : ℝ)) * Real.pi / 180
  let dLng : ℝ := ((lng2 : ℝ) - (lng1 : ℝ)) * Real.pi / 180
  let a := Real.sin (dLat / 2) * Real.sin (dLat / 2) +
    Real.cos ((lat1 : ℝ) * Real.pi / 180) * Real.cos ((lat2 : ℝ) * Real.pi / 180) *
    Real.sin (dLng / 2) * Real.sin (dLng / 2)
  let c := 2 * atan2 (Real.sqrt a) (Real.sqrt (1 - a))
  R * c

/-- Boolean `x ≤ y` over `ℝ` (classically decided; real numbers model the
source's floating-point values, on which `<=` is a primitive). -/
noncomputable def realLE (x y : ℝ) : Bool :=
  @decide (x ≤ y) (Classical.propDecidable _)

/-- The comparator closure `(a, b) => distA - distB` passed to
`selectedSprings.sort` by `optimizeWithGeometricOrder`: `a` precedes `b`
when `distance(start, a) ≤ distance(start, b)`. -/
noncomputable def geometricComparator (start : Coord) (a b : Stop) : Bool :=
  realLE (calculateDistance start.lat start.lng a.coord.lat a.coord.lng)
    (calculateDistance start.lat start.lng b.coord.lat b.coord.lng)

/-! ## Trip-state mutations -/

/-- `TripPlanner.addSpringToTrip`: unconditional `push` (UI refresh calls
elided). -/
def addSpringToTrip (spring : Spring) (st : TripState) : TripState :=
  { st with selectedSprings := st.selectedSprings ++ [Stop.spring spring] }

/-- `TripPlanner.removeSpringFromTrip`:
`selectedSprings.filter(s => s.slug !== slug)` (a bare start-location
element has `slug === undefined` and is never equal to a string). -/
def removeSpringFromTrip (slug : JStr) (st : TripState) : TripState :=
  { st with selectedSprings := st.selectedSprings.filter (fun s => ¬ s.slug? = some slug) }

/-- `TripPlanner.toggleSpring`: look the slug up in the catalog; if some
selected element carries that slug, remove, otherwise add the found
spring. -/
def toggleSpring (slug : JStr) (st : TripState) : TripState :=
  match st.springs.find? (fun s => s.slug = slug) with
  | none => st
  | some spring =>
    if st.selectedSprings.any (fun s => s.slug? = some slug) then
      removeSpringFromTrip slug st
    else
      addSpringToTrip spring st

/-! ## The optimizer -/

/-- `TripPlanner.optimizeWithGeometricOrder`: prepend the start location
and sort the selected springs by the distance-from-start comparator.
JS `Array::sort` with a consistent comparator is a stable sort
(ECMA-262 ≥ 2019), modelled by `List.mergeSort`.  The comparator — which
in the source closes over `this.calculateDistance` — is a parameter so
that comparator-independent facts can be stated once; `geometricComparator
start` is the source's instantiation. -/
def optimizeWithGeometricOrder (cmp : Stop → Stop → Bool) (start : Coord)
    (selectedSprings : List Stop) : List Stop :=
  Stop.startLoc start :: selectedSprings.mergeSort cmp

/-- `TripPlanner.optimizeWithGoogleRoutes`: on any failure (`none`
response) fall back to the geometric order; on success, prepend the start
location to the reordering of the springs by the returned
`optimizedIntermediateWaypointIndex` permutation.  (An out-of-range index
would produce a JS `undefined` element; it is dropped here — no claim
exercises a malformed index list.) -/
def optimizeWithGoogleRoutes (cmp : Stop → Stop → Bool)
    (googleResp : Option (List ℕ)) (start : Coord)
    (selectedSprings : List Stop) : List Stop :=
  match googleResp with
  | none => optimizeWithGeometricOrder cmp start selectedSprings
  | some idxs => Stop.startLoc start :: idxs.filterMap (fun i => selectedSprings.get? i)

/-- `TripPlanner.drawStraightLines`: replace the route layer with the
dashed polyline through the given coordinates (markers and map fitting
elided). -/
def drawStraightLines (coordinates : List Coord) (st : TripState) : TripState :=
  { st with routeLayer := some (RouteLayer.straight coordinates) }

/-- The `coordinates` array built by `drawRoute`:
`[this.config.startLocation, ...springs.map(s => ({lat, lng}))]` (callers
always have a start location set when a route is drawn). -/
def routeCoordinates (st : TripState) (springs : List Stop) : List Coord :=
  (match st.startLocation with | some c => [c] | none => []) ++ springs.map Stop.coord

/-- `TripPlanner.drawRoute`: either draw the provider geometry and store
the route in `optimizedRoute`, or — on any provider failure — fall back to
`drawStraightLines` on the `coordinates` array, which leaves
`optimizedRoute` untouched. -/
def drawRoute (mapboxResp : Option MapRoute) (springs : List Stop)
    (st : TripState) : TripState :=
  match mapboxResp with
  | some route =>
    { st with routeLayer := some (RouteLayer.geoJson route.geometry),
              optimizedRoute := some route }
  | none => drawStraightLines (routeCoordinates st springs) st

/-- `TripPlanner.calculateRouteStats`: `null` unless a provider route is
stored; otherwise meters → miles rounded to one decimal
(`toFixed(1)`) and seconds → whole minutes (`Math.round`).  (Its `springs`
argument is unused in the source too.) -/
def calculateRouteStats (st : TripState) : Option RouteStats :=
  match st.optimizedRoute with
  | none => none
  | some route =>
    some ⟨(round (route.distance / (160934 / 100) * 10) : ℤ) / 10,
          round (route.duration / 60)⟩

/-- `TripPlanner.calculateDistanceFromRoute`: the displayed
"miles off route" of a recommended POI is `Math.random() * 3 + 0.5` — the
random draw is the only input that matters; the POI (and the route) are
ignored.  `rnd` is the oracle for `Math.random()`. -/
def calculateDistanceFromRoute (rnd : ℚ) (_poi : Coord) : ℚ :=
  rnd * 3 + 1 / 2

/-- `TripPlanner.optimizeRoute`: precondition checks (start location set,
at least 2 selected), tier choice by configured Google key, assignment of
the optimized order **into `selectedSprings`**, then route drawing.
(Stats display and POI recommendations mutate only the DOM.)  There is no
in-flight guard in the source: the function never consults a busy flag. -/
def optimizeRoute (cmp : Stop → Stop → Bool) (hasGoogleKey : Bool)
    (googleResp : Option (List ℕ)) (mapboxResp : Option MapRoute)
    (st : TripState) : TripState :=
  match st.startLocation with
  | none => st
  | some start =>
    if st.selectedSprings.length < 2 then st
    else
      let optimizedOrder :=
        if hasGoogleKey then
          optimizeWithGoogleRoutes cmp googleResp start st.selectedSprings
        else
          optimizeWithGeometricOrder cmp start st.selectedSprings
      drawRoute mapboxResp optimizedOrder
        { st with selectedSprings := optimizedOrder }

/-! ## Persistence and the share codec -/

/-- `TripPlanner.saveTripToLocalStorage`: a no-op when nothing is
selected; otherwise overwrite the `hotSpringsTrip` slot with the slugs of
the selected elements, the start location and a timestamp (`now` is the
oracle for `new Date().toISOString()`). -/
def saveTripToLocalStorage (now : JStr) (st : TripState)
    (slot : Option SavedTrip) : Option SavedTrip :=
  if st.selectedSprings.length = 0 then slot
  else some ⟨st.selectedSprings.map Stop.slug?, st.startLocation, now⟩

/-- Resolve a stored slug against the catalog:
`slug => this.config.springs.find(s => s.slug === slug)`. -/
def resolveSlug (catalog : List Spring) (slug : JStr) : Option Spring :=
  catalog.find? (fun s => s.slug = slug)

/-- `TripPlanner.loadTripFromLocalStorage`: nothing happens without a
saved record; otherwise `selectedSprings` and `startLocation` are
overwritten unconditionally (unresolvable slugs — and the `null` a bare
start element was saved as — are dropped by `.filter(Boolean)`). -/
def loadTripFromLocalStorage (slot : Option SavedTrip) (st : TripState) : TripState :=
  match slot with
  | none => st
  | some trip =>
    { st with
      selectedSprings :=
        (trip.springs.filterMap (fun o => o.bind (resolveSlug st.springs))).map Stop.spring,
      startLocation := trip.startLocation }

/-- `TripPlanner.generateShareableURL`: query parameters
`springs = slugs joined by ','` and `start = "lat,lng"` (empty when no
start location).  A bare start-location element in `selectedSprings`
would stringify its `undefined` slug as `"undefined"`. -/
def generateShareableURL (st : TripState) : ShareURL :=
  { springs := some (joinComma (st.selectedSprings.map
      (fun s => (s.slug?).getD ("undefined".toList)))),
    start := some (match st.startLocation with
      | some c => renderQ c.lat ++ ',' :: renderQ c.lng
      | none => []) }

/-- `TripPlanner.parseURLParams`: an absent or empty parameter is falsy
and skipped.  A present `springs` list is split on commas, resolved
against the catalog and assigned; a present `start` is split and parsed
into `{lat, lng}`.  (If `parseFloat` yields `NaN` the source stores a
coordinate object with `NaN` fields; no claim reaches that corner and the
state is modelled as unchanged there.) -/
def parseURLParams (url : ShareURL) (st : TripState) : TripState :=
  let st1 :=
    match url.springs with
    | some sp =>
      if sp = [] then st
      else
        { st with selectedSprings :=
            ((splitComma sp).filterMap (resolveSlug st.springs)).map Stop.spring }
    | none => st
  match url.start with
  | some sq =>
    if sq = [] then st1
    else
      let parts := splitComma sq
      match parseFloat (parts.getD 0 []), parseFloat (parts.getD 1 []) with
      | some la, some ln => { st1 with startLocation := some ⟨la, ln⟩ }
      | _, _ => st1
  | none => st1

/-- `TripPlanner.loadSavedTrip` (called once from `init`): URL parameters
first, then the localStorage slot. -/
def loadSavedTrip (url : ShareURL) (slot : Option SavedTrip) (st : TripState) : TripState :=
  loadTripFromLocalStorage slot (parseURLParams url st)

/-! ## Concrete fixtures used by witnesses and counterexamples -/

/-- The waypoint identifiers carried by a `selectedSprings` array (a bare
start-location element carries none). -/
def selectedSlugs (l : List Stop) : List JStr := l.filterMap Stop.slug?

/-! ## Concrete fixtures used by witnesses and counterexamples -/

/-- Waypoint "a" at (48, -121). -/
def exSpringA : Spring := ⟨"ra".toList, "Alpha".toList, "a".toList, 48, -121⟩

/-- Waypoint "b" at (46, -119). -/
def exSpringB : Spring := ⟨"rb".toList, "Beta".toList, "b".toList, 46, -119⟩

/-- The spec's concrete start location (47.60, -120.74). -/
def exStart : Coord := ⟨476 / 10, -12074 / 100⟩

/-- A session with springs "a" and "b" selected and a start set, before
any optimize call. -/
def exSt1 : TripState :=
  ⟨[exSpringA, exSpringB], [Stop.spring exSpringA, Stop.spring exSpringB],
    some exStart, none, none⟩

/-- A prior save of trip "b". -/
def exTrip9 : SavedTrip := ⟨[some "b".toList], some ⟨3, 4⟩, []⟩

/-- An empty-selection session holding catalog "a". -/
def exSt9 : TripState := ⟨[exSpringA], [], none, none, none⟩

/-- C3 counterexample: `exSt3` is the session state captured while a first
optimize call is suspended at its network await, its order (start consed
onto the sorted springs) already assigned.  The source has no in-flight
guard — the `isLoading` field set in the constructor is never read — so a
second invocation passes the precondition checks, runs in full, and
mutates the trip state: it is not a no-op. -/
def exSt3 : TripState :=
  ⟨[exSpringA, exSpringB],
    [Stop.startLoc exStart, Stop.spring exSpringA, Stop.spring exSpringB],
    some exStart, none, none⟩

/-- A share URL carrying the same identifier twice. -/
def exUrl8 : ShareURL := ⟨some "a,a".toList, none⟩

/-- The share token of trip "a" starting at (1, 2). -/
def exUrl2 : ShareURL := ⟨some "a".toList, some "1,2".toList⟩

/-- The locally saved trip "b" starting at (3, 4). -/
def exTrip2 : SavedTrip := ⟨[some "b".toList], some ⟨3, 4⟩, []⟩

/-- The Sol Duc catalog entry used by the C7 witness. -/
def exSolDuc : Spring := ⟨"r1".toList, "Sol Duc".toList, "sol-duc".toList, 47, -123⟩

/-- A session with Sol Duc selected and an integer start coordinate. -/
def exSt7w : TripState :=
  ⟨[exSolDuc], [Stop.spring exSolDuc], some ⟨47, -120⟩, none, none⟩

/-- A fresh session over the same catalog (decode target). -/
def exSt7f : TripState := ⟨[exSolDuc], [], none, none, none⟩

/-- A catalog waypoint whose slug contains a comma. -/
def exSpringComma : Spring := ⟨"rc".toList, "Comma".toList, "a,b".toList, 5, 6⟩

/-- A session with the comma-slug waypoint selected (no start location, so
only the identifier part of the codec is exercised). -/
def exSt7c : TripState := ⟨[exSpringComma], [Stop.spring exSpringComma], none, none, none⟩

/-! ## Lemmas: digit strings and `parseFloat` -/

/-- Digit characters round-trip through `digitVal`/`Char.ofNat`. -/
lemma digitVal_char_ofNat {d : ℕ} (hd : d < 10) :
    digitVal (Char.ofNat (48 + d)) = d ∧ (Char.ofNat (48 + d)).isDigit = true := by
  interval_cases d <;> exact ⟨by decide, by decide⟩

/-- Horner evaluation with an arbitrary accumulator. -/
lemma natVal_foldl (b : JStr) :
    ∀ i : ℕ, b.foldl (fun a c => 10 * a + digitVal c) i = i * 10 ^ b.length + natVal b := by
  induction b with
  | nil => intro i; simp [natVal]
  | cons c t ih =>
    intro i
    have hv : natVal (c :: t) = digitVal c * 10 ^ t.length + natVal t := by
      show t.foldl _ (10 * 0 + digitVal c) = _
      rw [ih]; ring_nf
    simp only [List.foldl_cons, List.length_cons, ih, hv]
    ring

lemma natVal_append (a b : JStr) :
    natVal (a ++ b) = natVal a * 10 ^ b.length + natVal b := by
  show (a ++ b).foldl _ 0 = _
  rw [List.foldl_append, natVal_foldl]
  rfl

lemma natVal_replicate_zero (m : ℕ) (s : JStr) :
    natVal (List.replicate m '0' ++ s) = natVal s := by
  induction m with
  | zero => simp
  | succ n ih =>
    show natVal ('0' :: (List.replicate n '0' ++ s)) = natVal s
    show (List.replicate n '0' ++ s).foldl _ (10 * 0 + digitVal '0') = _
    have : 10 * 0 + digitVal '0' = 0 := by decide
    rw [this]
    exact ih

lemma renderNat_ne_nil (n : ℕ) : renderNat n ≠ [] := by
  unfold renderNat
  split
  · simp
  · rename_i h
    have : Nat.digits 10 n ≠ [] := Nat.digits_ne_nil_iff_ne_zero.mpr h
    simp [this]

lemma renderNat_isDigit {n : ℕ} {c : Char} (h : c ∈ renderNat n) : c.isDigit = true := by
  unfold renderNat at h
  split at h
  · simp at h; subst h; decide
  · simp only [List.mem_map, List.mem_reverse] at h
    obtain ⟨d, hd, rfl⟩ := h
    exact (digitVal_char_ofNat (Nat.digits_lt_base (by norm_num) hd)).2

/-- `natVal` of the reversed digit list of `n` is `n` itself. -/
lemma natVal_renderNat (n : ℕ) : natVal (renderNat n) = n := by
  unfold renderNat
  split
  · rename_i h; subst h; decide
  · suffices h : ∀ ds : List ℕ, (∀ d ∈ ds, d < 10) →
        natVal (ds.reverse.map (fun d => Char.ofNat (48 + d))) = Nat.ofDigits 10 ds by
      rw [h _ (fun d hd => Nat.digits_lt_base (by norm_num) hd)]
      exact_mod_cast Nat.ofDigits_digits 10 n
    intro ds
    induction ds with
    | nil => intro _; simp [natVal]
    | cons d t ih =>
      intro hlt
      have h10 : d < 10 := hlt d (List.mem_cons_self d t)
      simp only [List.reverse_cons, List.map_append, List.map_cons, List.map_nil]
      rw [natVal_append, ih (fun x hx => hlt x (List.mem_cons_of_mem d hx))]
      have h1 : natVal [Char.ofNat (48 + d)] = d := by
        show List.foldl (fun a c => 10 * a + digitVal c) 0 [Char.ofNat (48 + d)] = d
        simp [List.foldl, (digitVal_char_ofNat h10).1]
      rw [Nat.ofDigits_cons]
      simp [h1]
      ring

lemma isDigit_not_whitespace {c : Char} (hd : c.isDigit = true) : c.isWhitespace = false := by
  by_contra hw
  rw [Bool.not_eq_false] at hw
  unfold Char.isWhitespace at hw
  simp only [Bool.or_eq_true, decide_eq_true_eq] at hw
  rcases hw with ((h | h) | h) | h <;> (subst h; exact absurd hd (by decide))

lemma takeWhile_middle {p : Char → Bool} {a : JStr} {b : Char} {t : JStr}
    (ha : ∀ c ∈ a, p c = true) (hb : p b = false) :
    (a ++ b :: t).takeWhile p = a ∧ (a ++ b :: t).dropWhile p = b :: t := by
  induction a with
  | nil => simp [List.takeWhile_cons, List.dropWhile_cons, hb]
  | cons x xs ih =>
    have hx : p x = true := ha x (List.mem_cons_self x xs)
    have h' := ih (fun c hc => ha c (List.mem_cons_of_mem x hc))
    simp [List.takeWhile_cons, List.dropWhile_cons, hx, h'.1, h'.2]

lemma takeWhile_of_all {p : Char → Bool} {a : JStr} (ha : ∀ c ∈ a, p c = true) :
    a.takeWhile p = a ∧ a.dropWhile p = [] := by
  induction a with
  | nil => simp
  | cons x xs ih =>
    have hx : p x = true := ha x (List.mem_cons_self x xs)
    have h' := ih (fun c hc => ha c (List.mem_cons_of_mem x hc))
    simp [List.takeWhile_cons, List.dropWhile_cons, hx, h'.1, h'.2]

/-- `parseFloat` on an unsigned digit string with a fractional part. -/
lemma parseFloat_decimal (ip fp : JStr) (hip : ip ≠ [])
    (h1 : ∀ c ∈ ip, c.isDigit = true) (h2 : ∀ c ∈ fp, c.isDigit = true) :
    parseFloat (ip ++ '.' :: fp) = some ((natVal ip : ℚ) + (natVal fp : ℚ) / 10 ^ fp.length) := by
  obtain ⟨c0, ip', rfl⟩ := List.exists_cons_of_ne_nil hip
  have hc0 : c0.isDigit = true := h1 c0 (List.mem_cons_self _ _)
  have hw : c0.isWhitespace = false := isDigit_not_whitespace hc0
  have hcm : ¬ (c0 = '-') := by rintro rfl; exact absurd hc0 (by decide)
  have hcp : ¬ (c0 = '+') := by rintro rfl; exact absurd hc0 (by decide)
  have htk := takeWhile_middle (p := Char.isDigit) (a := c0 :: ip') (b := '.') (t := fp)
    h1 (by decide)
  have htf := takeWhile_of_all (p := Char.isDigit) h2
  have hdw : ((c0 :: ip') ++ '.' :: fp).dropWhile (fun c => c.isWhitespace) =
      (c0 :: ip') ++ '.' :: fp := by
    rw [List.cons_append, List.dropWhile_cons]
    simp [hw]
  unfold parseFloat
  simp only [List.cons_append] at htk hdw ⊢
  simp only [hdw, List.headD_cons]
  rw [if_neg (show ¬(c0 = '-' ∨ c0 = '+') from fun h => h.elim hcm hcp)]
  simp only [htk.1, htk.2, List.headD_cons, List.tail_cons, htf.1]
  simp [hcm]

/-- `parseFloat` on an unsigned digit string without a fractional part. -/
lemma parseFloat_digits (ip : JStr) (hip : ip ≠ [])
    (h1 : ∀ c ∈ ip, c.isDigit = true) :
    parseFloat ip = some ((natVal ip : ℚ)) := by
  obtain ⟨c0, ip', rfl⟩ := List.exists_cons_of_ne_nil hip
  have hc0 : c0.isDigit = true := h1 c0 (List.mem_cons_self _ _)
  have hw : c0.isWhitespace = false := isDigit_not_whitespace hc0
  have hcm : ¬ (c0 = '-') := by rintro rfl; exact absurd hc0 (by decide)
  have hcp : ¬ (c0 = '+') := by rintro rfl; exact absurd hc0 (by decide)
  have htk := takeWhile_of_all (p := Char.isDigit) h1
  have hdw : (c0 :: ip').dropWhile (fun c => c.isWhitespace) = c0 :: ip' := by
    rw [List.dropWhile_cons]; simp [hw]
  unfold parseFloat
  simp only [hdw, List.headD_cons]
  rw [if_neg (show ¬(c0 = '-' ∨ c0 = '+') from fun h => h.elim hcm hcp)]
  simp only [htk.1, htk.2]
  simp [hcm, natVal]

/-- `parseFloat` on a minus sign followed by digit material negates. -/
lemma parseFloat_neg (r : JStr) (hr : (r.headD ' ').isDigit = true) :
    parseFloat ('-' :: r) = (parseFloat r).map (fun v => -v) := by
  obtain ⟨c0, r', rfl⟩ : ∃ c0 r', r = c0 :: r' := by
    cases r with
    | nil => exact absurd hr (by decide)
    | cons a t => exact ⟨a, t, rfl⟩
  rw [List.headD_cons] at hr
  have hw : c0.isWhitespace = false := isDigit_not_whitespace hr
  have hcm : ¬ (c0 = '-') := by rintro rfl; exact absurd hr (by decide)
  have hcp : ¬ (c0 = '+') := by rintro rfl; exact absurd hr (by decide)
  unfold parseFloat
  have hdw1 : ('-' :: c0 :: r').dropWhile (fun c => c.isWhitespace) = '-' :: c0 :: r' := by
    rw [List.dropWhile_cons]; simp
  have hdw2 : (c0 :: r').dropWhile (fun c => c.isWhitespace) = c0 :: r' := by
    rw [List.dropWhile_cons]; simp [hw]
  simp only [hdw1, hdw2, List.headD_cons, List.tail_cons, eq_self_iff_true, true_or,
    if_true]
  rw [if_neg (show ¬(c0 = '-' ∨ c0 = '+') from fun h => h.elim hcm hcp)]
  simp only [hcm, decide_True, decide_False, if_true, if_false, decide_eq_true_eq,
    if_neg hcm]
  split <;> split <;> simp

/-- A number dividing a power of ten divides the power of ten of its own
exponent (its prime factors are among 2 and 5, each with multiplicity
below itself). -/
lemma dvd_ten_pow_self (n : ℕ) : ∀ k, n ∣ 10 ^ k → n ∣ 10 ^ n := by
  induction n using Nat.strong_induction_on with
  | _ n ih =>
    intro k hk
    match n, ih with
    | 0, _ =>
      exfalso
      exact pow_ne_zero k (by norm_num : (10 : ℕ) ≠ 0) (Nat.eq_zero_of_zero_dvd hk)
    | 1, _ => exact one_dvd _
    | (m + 2), ih =>
      by_cases hcop : Nat.Coprime (m + 2) 10
      · have h1 : m + 2 = 1 := (hcop.pow_right k).eq_one_of_dvd hk
        omega
      · have h25 : 2 ∣ (m + 2) ∨ 5 ∣ (m + 2) := by
          set g := Nat.gcd (m + 2) 10 with hgdef
          have hg10 : g ∣ 10 := Nat.gcd_dvd_right _ _
          have hgn : g ∣ (m + 2) := Nat.gcd_dvd_left _ _
          have hle : g ≤ 10 := Nat.le_of_dvd (by norm_num) hg10
          have hg0 : g ≠ 0 := by
            intro h0
            rw [hgdef] at h0
            exact absurd (Nat.eq_zero_of_gcd_eq_zero_left h0) (by omega)
          have hg1 : g ≠ 1 := by
            intro h1
            rw [hgdef] at h1
            exact hcop h1
          interval_cases g <;>
            first
            | exact absurd rfl hg0
            | exact absurd rfl hg1
            | exact Or.inl hgn
            | exact Or.inr hgn
            | (refine Or.inl (dvd_trans ?_ hgn); decide)
            | (exfalso; norm_num at hg10)
        obtain ⟨d, hd10, hdn, hd2⟩ : ∃ d, d ∣ 10 ∧ d ∣ (m + 2) ∧ 2 ≤ d := by
          rcases h25 with h | h
          · exact ⟨2, by norm_num, h, by norm_num⟩
          · exact ⟨5, by norm_num, h, by norm_num⟩
        have hmul : d * ((m + 2) / d) = m + 2 := Nat.mul_div_cancel' hdn
        have hlt : (m + 2) / d < m + 2 := Nat.div_lt_self (by omega) (by omega)
        have hdvd' : (m + 2) / d ∣ 10 ^ k :=
          dvd_trans ⟨d, by rw [mul_comm]; exact hmul.symm⟩ hk
        have ihn := ih ((m + 2) / d) hlt k hdvd'
        have hstep : (m + 2) ∣ 10 ^ ((m + 2) / d + 1) := by
          have h2 : d * ((m + 2) / d) ∣ 10 * 10 ^ ((m + 2) / d) := mul_dvd_mul hd10 ihn
          rw [hmul] at h2
          rw [pow_succ, mul_comm (10 ^ ((m + 2) / d)) 10]
          exact h2
        exact dvd_trans hstep (pow_dvd_pow 10 (by omega))

/-- The exponent found by `decExp` does witness divisibility whenever any
exponent does. -/
lemma decExp_dvd {q : ℚ} (h : ∃ k, (q.den : ℕ) ∣ 10 ^ k) :
    (q.den : ℕ) ∣ 10 ^ decExp q := by
  obtain ⟨k, hk⟩ := h
  have hden : q.den ∣ 10 ^ q.den := dvd_ten_pow_self q.den k hk
  have hmem : q.den ∈ List.range (q.den + 1) := List.mem_range.mpr (by omega)
  have hfind : ((List.range (q.den + 1)).find? (fun j => decide (q.den ∣ 10 ^ j))).isSome := by
    rw [List.find?_isSome]
    exact ⟨q.den, hmem, by simpa using hden⟩
  obtain ⟨j, hj⟩ := Option.isSome_iff_exists.mp hfind
  have := List.find?_some hj
  unfold decExp
  rw [hj]
  simpa using this

lemma headD_isDigit {l : JStr} (hne : l ≠ []) (h : ∀ c ∈ l, c.isDigit = true) :
    (l.headD ' ').isDigit = true := by
  cases l with
  | nil => exact absurd rfl hne
  | cons a t => exact h a (List.mem_cons_self a t)

/-- Every character of `renderQ q` is a digit, a point, or a minus sign. -/
lemma renderQ_mem {q : ℚ} {c : Char} (h : c ∈ renderQ q) :
    c.isDigit = true ∨ c = '.' ∨ c = '-' := by
  unfold renderQ at h
  have hpad : ∀ x ∈ List.replicate (decExp q + 1 - (renderNat (q.num.natAbs *
      (10 ^ decExp q / q.den))).length) '0' ++
      renderNat (q.num.natAbs * (10 ^ decExp q / q.den)), x.isDigit = true := by
    intro x hx
    rcases List.mem_append.mp hx with hx | hx
    · rw [List.eq_of_mem_replicate hx]; decide
    · exact renderNat_isDigit hx
  rcases List.mem_append.mp h with h | h
  · split at h
    · simp at h; subst h; exact Or.inr (Or.inr rfl)
    · simp at h
  · rcases List.mem_append.mp h with h | h
    · exact Or.inl (hpad _ (List.mem_of_mem_take h))
    · split at h
      · simp at h
      · rcases List.mem_cons.mp h with rfl | h
        · exact Or.inr (Or.inl rfl)
        · exact Or.inl (hpad _ (List.mem_of_mem_drop h))

/-- `renderQ` never contains a comma, so it survives the `"lat,lng"`
encoding intact. -/
lemma renderQ_no_comma (q : ℚ) : ¬ (',' ∈ renderQ q) := by
  intro h
  rcases renderQ_mem h with h | h | h <;> simp_all

/-- Round trip: `parseFloat` recovers exactly the number `renderQ`
printed, for any number with a finite decimal expansion (every
double-precision value is one). -/
lemma parseFloat_renderQ (q : ℚ) (h : ∃ k, (q.den : ℕ) ∣ 10 ^ k) :
    parseFloat (renderQ q) = some q := by
  have hk : (q.den : ℕ) ∣ 10 ^ decExp q := decExp_dvd h
  have hden0 : (q.den : ℚ) ≠ 0 := by
    exact_mod_cast q.den_nz
  set k := decExp q with hkdef
  set m : ℕ := q.num.natAbs * (10 ^ k / q.den) with hm
  have hmden : m * q.den = q.num.natAbs * 10 ^ k := by
    rw [hm, mul_assoc, Nat.div_mul_cancel hk]
  set s := renderNat m with hs
  set s' := List.replicate (k + 1 - s.length) '0' ++ s with hspad
  have hsne : s ≠ [] := renderNat_ne_nil m
  have hslen : 1 ≤ s.length := List.length_pos.mpr hsne
  have hlen' : s'.length = (k + 1 - s.length) + s.length := by
    rw [hspad, List.length_append, List.length_replicate]
  have hk1 : k + 1 ≤ s'.length := by omega
  have hdig' : ∀ c ∈ s', c.isDigit = true := by
    intro x hx
    rcases List.mem_append.mp (hspad ▸ hx) with hx | hx
    · rw [List.eq_of_mem_replicate hx]; decide
    · exact renderNat_isDigit (hs ▸ hx)
  have hnat' : natVal s' = m := by
    rw [hspad, natVal_replicate_zero, hs, natVal_renderNat]
  -- the split of `s'` into integer and fractional digits
  have hsplit : s'.take (s'.length - k) ++ s'.drop (s'.length - k) = s' :=
    List.take_append_drop _ _
  have hlenTake : (s'.take (s'.length - k)).length = s'.length - k := by
    rw [List.length_take]; omega
  have hlenDrop : (s'.drop (s'.length - k)).length = k := by
    rw [List.length_drop]; omega
  have hTakeNe : s'.take (s'.length - k) ≠ [] := by
    intro hnil
    have := congrArg List.length hnil
    rw [hlenTake] at this
    simp at this
    omega
  have hdigTake : ∀ c ∈ s'.take (s'.length - k), c.isDigit = true :=
    fun c hc => hdig' c (List.mem_of_mem_take hc)
  have hdigDrop : ∀ c ∈ s'.drop (s'.length - k), c.isDigit = true :=
    fun c hc => hdig' c (List.mem_of_mem_drop hc)
  have hvalSplit : natVal (s'.take (s'.length - k)) * 10 ^ k +
      natVal (s'.drop (s'.length - k)) = m := by
    have happ := natVal_append (s'.take (s'.length - k)) (s'.drop (s'.length - k))
    rw [hsplit, hlenDrop, hnat'] at happ
    exact happ.symm
  -- the printed magnitude re-parses to `|q|`
  have habs : (m : ℚ) = |q| * 10 ^ k := by
    have habsq : |q| = (q.num.natAbs : ℚ) / (q.den : ℚ) := by
      conv_lhs => rw [← Rat.num_div_den q]
      rw [abs_div, Int.cast_natAbs]
      congr 1
      · exact Int.cast_abs.symm
      · exact abs_of_nonneg (show (0 : ℚ) ≤ (q.den : ℚ) by exact_mod_cast q.den.zero_le)
    rw [habsq, div_mul_eq_mul_div, eq_div_iff hden0]
    exact_mod_cast hmden
  have hvq : (natVal (s'.take (s'.length - k)) : ℚ) +
      (natVal (s'.drop (s'.length - k)) : ℚ) / 10 ^ k = |q| := by
    have h10 : ((10 : ℚ) ^ k) ≠ 0 := by positivity
    field_simp
    have := congrArg (fun n : ℕ => (n : ℚ)) hvalSplit
    push_cast at this
    rw [habs] at this
    linarith [this]
  -- assemble `renderQ` and parse it back
  have hs'ne : s' ≠ [] := by
    intro hnil
    have h0 := congrArg List.length hnil
    rw [hlen'] at h0
    simp only [List.length_nil] at h0
    omega
  have hbody : renderQ q = (if q < 0 then ['-'] else []) ++
      (s'.take (s'.length - k) ++
        if k = 0 then [] else '.' :: s'.drop (s'.length - k)) := rfl
  by_cases hk0 : k = 0
  · have hbody0 : renderQ q = (if q < 0 then ['-'] else []) ++ s' := by
      rw [hbody]
      simp [hk0]
    have hval' : (natVal s' : ℚ) = |q| := by
      have h2 := habs
      rw [hk0] at h2
      simp only [pow_zero, mul_one] at h2
      rw [hnat']
      exact h2
    by_cases hneg : q < 0
    · rw [hbody0, if_pos hneg]
      rw [show (['-'] ++ s') = '-' :: s' from rfl]
      rw [parseFloat_neg s' (headD_isDigit hs'ne hdig')]
      rw [parseFloat_digits s' hs'ne hdig']
      simp only [Option.map_some']
      rw [hval', abs_of_neg hneg, neg_neg]
    · rw [hbody0, if_neg hneg]
      simp only [List.nil_append]
      rw [parseFloat_digits s' hs'ne hdig']
      rw [hval', abs_of_nonneg (le_of_not_lt hneg)]
  · have hbodyk : renderQ q = (if q < 0 then ['-'] else []) ++
        (s'.take (s'.length - k) ++ '.' :: s'.drop (s'.length - k)) := by
      rw [hbody, if_neg hk0]
    have hparse : parseFloat (s'.take (s'.length - k) ++ '.' :: s'.drop (s'.length - k)) =
        some (|q|) := by
      rw [parseFloat_decimal _ _ hTakeNe hdigTake hdigDrop, hlenDrop, hvq]
    by_cases hneg : q < 0
    · rw [hbodyk, if_pos hneg]
      rw [show (['-'] ++ (s'.take (s'.length - k) ++ '.' :: s'.drop (s'.length - k))) =
        '-' :: (s'.take (s'.length - k) ++ '.' :: s'.drop (s'.length - k)) from rfl]
      rw [parseFloat_neg _ (by
        obtain ⟨c0, t, hct⟩ := List.exists_cons_of_ne_nil hTakeNe
        rw [hct, List.cons_append, List.headD_cons]
        exact hdigTake c0 (hct ▸ List.mem_cons_self c0 t))]
      rw [hparse]
      simp only [Option.map_some']
      rw [abs_of_neg hneg, neg_neg]
    · rw [hbodyk, if_neg hneg]
      simp only [List.nil_append]
      rw [hparse, abs_of_nonneg (le_of_not_lt hneg)]

/-! ## Lemmas: comma codec -/

lemma splitComma_no_comma {x : JStr} (h : ¬ (',' ∈ x)) : splitComma x = [x] := by
  induction x with
  | nil => rfl
  | cons c t ih =>
    have hc : ¬ (c = ',') := fun hc => h (hc ▸ List.mem_cons_self c t)
    have ht := ih (fun hm => h (List.mem_cons_of_mem c hm))
    simp only [splitComma, if_neg hc, ht]

lemma splitComma_append {x : JStr} (h : ¬ (',' ∈ x)) (s : JStr) :
    splitComma (x ++ ',' :: s) = x :: splitComma s := by
  induction x with
  | nil =>
    simp [splitComma]
  | cons c t ih =>
    have hc : ¬ (c = ',') := fun hc => h (hc ▸ List.mem_cons_self c t)
    have ht := ih (fun hm => h (List.mem_cons_of_mem c hm))
    simp only [List.cons_append, splitComma, if_neg hc, List.append_eq, ht]

lemma splitComma_joinComma {l : List JStr} (hne : l ≠ [])
    (h : ∀ x ∈ l, ¬ (',' ∈ x)) : splitComma (joinComma l) = l := by
  induction l with
  | nil => exact absurd rfl hne
  | cons x xs ih =>
    cases xs with
    | nil => exact splitComma_no_comma (h x (List.mem_cons_self x []))
    | cons y ys =>
      rw [joinComma, splitComma_append (h x (List.mem_cons_self x (y :: ys)))]
      rw [ih (List.cons_ne_nil y ys) (fun z hz => h z (List.mem_cons_of_mem x hz))]

/-! ## Lemmas: catalog resolution -/

lemma resolveSlug_slug {catalog : List Spring} {g : JStr} {sp : Spring}
    (h : resolveSlug catalog g = some sp) : sp.slug = g := by
  have := List.find?_some h
  simpa using this

/-- Resolving a list of slugs that all resolve restores exactly those
slugs, in order. -/
lemma resolveList_slugs (catalog : List Spring) (slugs : List JStr)
    (h : ∀ g ∈ slugs, (resolveSlug catalog g).isSome) :
    ((slugs.filterMap (resolveSlug catalog)).map Stop.spring).map Stop.slug? =
      slugs.map some := by
  induction slugs with
  | nil => rfl
  | cons g gs ih =>
    obtain ⟨sp, hsp⟩ := Option.isSome_iff_exists.mp (h g (List.mem_cons_self g gs))
    have ihg := ih (fun x hx => h x (List.mem_cons_of_mem g hx))
    simp only [List.filterMap_cons, hsp, List.map_cons, ihg, Stop.slug?]
    rw [resolveSlug_slug hsp]

/-! ## Lemmas: the sort comparator -/

lemma realLE_iff (x y : ℝ) : realLE x y = true ↔ x ≤ y := by
  unfold realLE
  exact decide_eq_true_iff

lemma geometricComparator_trans (start : Coord) (a b c : Stop)
    (hab : geometricComparator start a b = true)
    (hbc : geometricComparator start b c = true) :
    geometricComparator start a c = true := by
  unfold geometricComparator at *
  rw [realLE_iff] at *
  exact le_trans hab hbc

lemma geometricComparator_total (start : Coord) (a b : Stop) :
    (geometricComparator start a b || geometricComparator start b a) = true := by
  unfold geometricComparator
  rcases le_total (calculateDistance start.lat start.lng a.coord.lat a.coord.lng)
    (calculateDistance start.lat start.lng b.coord.lat b.coord.lng) with h | h
  · rw [(realLE_iff _ _).mpr h]; simp
  · rw [(realLE_iff _ _).mpr h]; simp

/-! ## Lemmas: distinctness of selected slugs -/

lemma selectedSlugs_sublist {l l' : List Stop} (h : l'.Sublist l) :
    (selectedSlugs l').Sublist (selectedSlugs l) :=
  List.Sublist.filterMap Stop.slug? h

/-! ## Lemmas: the optimizer pipeline -/

/-- `drawRoute` never touches `selectedSprings`. -/
lemma drawRoute_selectedSprings (r : Option MapRoute) (springs : List Stop)
    (st : TripState) :
    (drawRoute r springs st).selectedSprings = st.selectedSprings := by
  unfold drawRoute drawStraightLines
  cases r <;> rfl

/-- When the optimizing-provider response is absent (unconfigured key or
any failure), `optimizeRoute` stores the geometric order — the start
location consed onto the sorted springs — into `selectedSprings`,
whichever tier was attempted. -/
lemma optimizeRoute_geometric_selected (cmp : Stop → Stop → Bool)
    (hasKey : Bool) (mResp : Option MapRoute) (st : TripState) (start : Coord)
    (h1 : st.startLocation = some start)
    (h2 : ¬ st.selectedSprings.length < 2) :
    (optimizeRoute cmp hasKey none mResp st).selectedSprings =
      Stop.startLoc start :: st.selectedSprings.mergeSort cmp := by
  unfold optimizeRoute
  simp only [h1]
  rw [if_neg h2]
  cases hasKey <;>
    simp [optimizeWithGoogleRoutes, optimizeWithGeometricOrder, drawRoute_selectedSprings]

/-- `parseURLParams` never touches the catalog. -/
lemma parseURLParams_springs (url : ShareURL) (st : TripState) :
    (parseURLParams url st).springs = st.springs := by
  unfold parseURLParams
  rcases url with ⟨sp, sq⟩
  cases sp <;> cases sq <;> simp only [] <;>
    (repeat' split) <;> rfl

/-! ## C10 -/

/-- C10: on the format documented in the source itself
(`"47.9689° N, 123.8631° W"`), the greedy `.*` before the second capture
group swallows all but the last digit of the longitude: the parsed
coordinate is `{lat: 47.9689, lng: -1}`, not `{lat: 47.9689,
lng: -123.8631}`, and `loadSprings` admits the waypoint into the catalog
with that wrong longitude. -/
theorem parseGPS_greedy_longitude :
    parseGPS "47.9689° N, 123.8631° W".toList =
      (some (479689 / 10000 : ℚ), some (-1 : ℚ)) ∧
    (-1 : ℚ) ≠ -(1238631 / 10000 : ℚ) ∧
    loadSprings [⟨"r1".toList, "Sol Duc".toList, "sol-duc".toList,
        "47.9689° N, 123.8631° W".toList⟩] =
      [⟨"r1".toList, "Sol Duc".toList, "sol-duc".toList, 479689 / 10000, -1⟩] := by
  have hm : jsMatchGPS "47.9689° N, 123.8631° W".toList =
      some ("47.9689".toList, "1".toList) := by decide
  have hp1 : parseFloat "47.9689".toList = some (479689 / 10000 : ℚ) := by
    rw [show "47.9689".toList = "47".toList ++ '.' :: "9689".toList from rfl]
    rw [parseFloat_decimal "47".toList "9689".toList (by decide) (by decide) (by decide)]
    rw [show natVal "47".toList = 47 from by decide,
      show natVal "9689".toList = 9689 from by decide,
      show ("9689".toList).length = 4 from by decide]
    norm_num
  have hp2 : parseFloat "1".toList = some (1 : ℚ) := by
    rw [parseFloat_digits "1".toList (by decide) (by decide)]
    rw [show natVal "1".toList = 1 from by decide]
    norm_num
  have hpg : parseGPS "47.9689° N, 123.8631° W".toList =
      (some (479689 / 10000 : ℚ), some (-1 : ℚ)) := by
    unfold parseGPS
    rw [hm]
    simp only [hp1, hp2, Option.map_some']
  refine ⟨hpg, by norm_num, ?_⟩
  unfold loadSprings
  simp only [List.filterMap_cons, List.filterMap_nil]
  rw [hpg]
  norm_num

/-! ## C9 -/

/-- C9: `saveTripToLocalStorage` with zero selected waypoints returns
before touching the durable slot, so any previously saved trip survives. -/
theorem saveTrip_empty_preserves_slot (now : JStr) (st : TripState)
    (slot : Option SavedTrip) (h : st.selectedSprings = []) :
    saveTripToLocalStorage now st slot = slot := by
  unfold saveTripToLocalStorage
  rw [h]
  simp

/-- Witness for C9 at a concrete slot content. -/
theorem saveTrip_empty_preserves_slot_witness :
    exSt9.selectedSprings = [] ∧
    saveTripToLocalStorage [] exSt9 (some exTrip9) = some exTrip9 :=
  ⟨rfl, saveTrip_empty_preserves_slot [] exSt9 (some exTrip9) rfl⟩

/-! ## C6 -/

/-- C6: when the optimizing-provider response is absent — key unconfigured
(`hasKey = false`) or any tier-1 failure — the order stored by
`optimizeRoute` is the start location followed by exactly the selected
springs sorted by ascending `calculateDistance` from the start coordinate:
a flat sort from the single origin (the comparator compares distances to
the one start), not a chained nearest-neighbor tour. -/
theorem geometric_fallback_flat_sort (hasKey : Bool) (mResp : Option MapRoute)
    (st : TripState) (start : Coord)
    (h1 : st.startLocation = some start)
    (h2 : ¬ st.selectedSprings.length < 2) :
    ∃ t : List Stop,
      (optimizeRoute (geometricComparator start) hasKey none mResp st).selectedSprings =
        Stop.startLoc start :: t ∧
      t.Perm st.selectedSprings ∧
      t.Pairwise (fun a b =>
        calculateDistance start.lat start.lng a.coord.lat a.coord.lng ≤
        calculateDistance start.lat start.lng b.coord.lat b.coord.lng) := by
  refine ⟨st.selectedSprings.mergeSort (geometricComparator start),
    optimizeRoute_geometric_selected _ hasKey mResp st start h1 h2,
    List.mergeSort_perm _ _, ?_⟩
  have hs := @List.sorted_mergeSort Stop (geometricComparator start)
    (geometricComparator_trans start) (geometricComparator_total start)
    st.selectedSprings
  exact hs.imp (fun h => (realLE_iff _ _).mp h)

/-- Witness for C6 on the two-spring session. -/
theorem geometric_fallback_flat_sort_witness :
    exSt1.startLocation = some exStart ∧ ¬ exSt1.selectedSprings.length < 2 ∧
    ∃ t : List Stop,
      (optimizeRoute (geometricComparator exStart) false none none exSt1).selectedSprings =
        Stop.startLoc exStart :: t ∧
      t.Perm exSt1.selectedSprings ∧
      t.Pairwise (fun a b =>
        calculateDistance exStart.lat exStart.lng a.coord.lat a.coord.lng ≤
        calculateDistance exStart.lat exStart.lng b.coord.lat b.coord.lng) :=
  ⟨rfl, by decide, geometric_fallback_flat_sort false none exSt1 exStart rfl (by decide)⟩

/-! ## C1 -/

/-- C1: with the spec's concrete start location and two selected
waypoints (no provider key, so the geometric tier runs), the optimize call
stores into `selectedSprings` a three-element sequence whose head is the
bare start location: the start is inserted into the trip-state waypoint
sequence, so the stored order is not set-equal to the two input
waypoints. -/
theorem optimizeRoute_inserts_start :
    (optimizeRoute (geometricComparator exStart) false none none exSt1).selectedSprings.length = 3 ∧
    Stop.startLoc exStart ∈
      (optimizeRoute (geometricComparator exStart) false none none exSt1).selectedSprings ∧
    ¬ Stop.startLoc exStart ∈ exSt1.selectedSprings := by
  have hsel := optimizeRoute_geometric_selected (geometricComparator exStart) false none
    exSt1 exStart rfl (by decide)
  refine ⟨?_, ?_, ?_⟩
  · rw [hsel]
    simp [List.length_mergeSort, exSt1]
  · rw [hsel]
    exact List.mem_cons_self _ _
  · simp [exSt1]

/-! ## C3 -/

/-- C3 is false on the code: a second optimize call issued against the
mid-flight state changes the trip state (it prepends the start location
again). -/
theorem optimizeRoute_reentry_mutates :
    optimizeRoute (geometricComparator exStart) false none none exSt3 ≠ exSt3 := by
  intro h
  have hsel := optimizeRoute_geometric_selected (geometricComparator exStart) false none
    exSt3 exStart rfl (by decide)
  rw [h] at hsel
  have hlen := congrArg List.length hsel
  simp [List.length_mergeSort, exSt3] at hlen

/-- C3 amended: there is no in-flight guard; any optimize invocation that
passes the precondition checks — whether or not another one is suspended —
mutates `selectedSprings`, growing it by exactly the prepended start
location (geometric tier). -/
theorem optimizeRoute_second_call_grows (cmp : Stop → Stop → Bool)
    (mResp : Option MapRoute) (st : TripState) (start : Coord)
    (h1 : st.startLocation = some start)
    (h2 : ¬ st.selectedSprings.length < 2) :
    (optimizeRoute cmp false none mResp st).selectedSprings.length =
      st.selectedSprings.length + 1 := by
  rw [optimizeRoute_geometric_selected cmp false mResp st start h1 h2]
  simp [List.length_mergeSort]

/-- Witness for the amended C3 at the mid-flight state. -/
theorem optimizeRoute_second_call_grows_witness :
    exSt3.startLocation = some exStart ∧ ¬ exSt3.selectedSprings.length < 2 ∧
    (optimizeRoute (fun _ _ => true) false none none exSt3).selectedSprings.length =
      exSt3.selectedSprings.length + 1 :=
  ⟨rfl, by decide,
    optimizeRoute_second_call_grows (fun _ _ => true) none exSt3 exStart rfl (by decide)⟩

/-! ## C4 -/

/-- C4: the displayed "miles off route" is `Math.random() * 3 + 0.5`:
it does not depend on the POI (or the route) at all, and two draws of the
random oracle give two different displayed distances for the same POI —
it is a placeholder, not the distance to the nearest point of the
polyline. -/
theorem calculateDistanceFromRoute_placeholder :
    (∀ (rnd : ℚ) (p p' : Coord),
      calculateDistanceFromRoute rnd p = calculateDistanceFromRoute rnd p') ∧
    calculateDistanceFromRoute 0 ⟨0, 0⟩ = 1 / 2 ∧
    calculateDistanceFromRoute (1 / 2) ⟨0, 0⟩ = 2 ∧
    calculateDistanceFromRoute 0 ⟨0, 0⟩ ≠ calculateDistanceFromRoute (1 / 2) ⟨0, 0⟩ := by
  refine ⟨fun rnd p p' => rfl, by norm_num [calculateDistanceFromRoute],
    by norm_num [calculateDistanceFromRoute], by norm_num [calculateDistanceFromRoute]⟩

/-! ## C5 -/

/-- C5 counterexample: on a fresh session (no prior provider route), a
directions-provider failure draws the dashed straight-line layer but
`calculateRouteStats` returns `null` — the aggregate distance statistic is
absent, not the §4.2 haversine sum the claim requires. -/
theorem calculateRouteStats_absent_on_fallback :
    calculateRouteStats
      (drawRoute none [Stop.spring exSpringA, Stop.spring exSpringB] exSt1) = none ∧
    (drawRoute none [Stop.spring exSpringA, Stop.spring exSpringB] exSt1).routeLayer ≠
      none := by
  constructor
  · rfl
  · simp [drawRoute, drawStraightLines]

/-- C5 amended: on provider failure the geometry fetcher still yields a
defined, renderable path — the straight polyline through the
`coordinates` array — and leaves `optimizedRoute` unchanged; but when no
earlier provider route is cached, the aggregate statistics call yields
`null` rather than the haversine-sum approximation. -/
theorem drawRoute_failure_defined (springs : List Stop) (st : TripState)
    (h : st.optimizedRoute = none) :
    (drawRoute none springs st).routeLayer =
      some (RouteLayer.straight (routeCoordinates st springs)) ∧
    (drawRoute none springs st).optimizedRoute = none ∧
    calculateRouteStats (drawRoute none springs st) = none := by
  unfold drawRoute drawStraightLines calculateRouteStats
  simp [h]

/-- Witness for the amended C5 on a concrete fresh session. -/
theorem drawRoute_failure_defined_witness :
    exSt1.optimizedRoute = none ∧
    ((drawRoute none [Stop.spring exSpringA] exSt1).routeLayer =
        some (RouteLayer.straight (routeCoordinates exSt1 [Stop.spring exSpringA])) ∧
      (drawRoute none [Stop.spring exSpringA] exSt1).optimizedRoute = none ∧
      calculateRouteStats (drawRoute none [Stop.spring exSpringA] exSt1) = none) :=
  ⟨rfl, drawRoute_failure_defined [Stop.spring exSpringA] exSt1 rfl⟩

/-! ## C8 -/

/-- C8 counterexample: share-decode of `?springs=a,a` resolves the slug
twice and stores it twice — the selected-waypoint identifiers are no
longer distinct, so not every trip-state mutation preserves the
invariant. -/
theorem parseURLParams_duplicate_slugs :
    selectedSlugs (parseURLParams exUrl8 exSt9).selectedSprings =
      ["a".toList, "a".toList] ∧
    ¬ (selectedSlugs (parseURLParams exUrl8 exSt9).selectedSprings).Nodup := by
  refine ⟨rfl, ?_⟩
  intro h
  rw [show selectedSlugs (parseURLParams exUrl8 exSt9).selectedSprings =
    ["a".toList, "a".toList] from rfl] at h
  simp at h

/-- C8 amended: of the listed mutations, `toggleSpring` and
`removeSpringFromTrip` do preserve distinctness of the selected waypoint
identifiers (and nothing enforces the 50-entry bound; add, optimize and the
decoders can violate the invariant, as the counterexample shows for
share-decode). -/
theorem toggle_remove_preserve_distinct (st : TripState) (slug : JStr)
    (h : (selectedSlugs st.selectedSprings).Nodup) :
    (selectedSlugs (toggleSpring slug st).selectedSprings).Nodup ∧
    (selectedSlugs (removeSpringFromTrip slug st).selectedSprings).Nodup := by
  have hrem : (selectedSlugs (removeSpringFromTrip slug st).selectedSprings).Nodup := by
    refine List.Nodup.sublist ?_ h
    exact selectedSlugs_sublist (List.filter_sublist _)
  refine ⟨?_, hrem⟩
  unfold toggleSpring
  cases hf : st.springs.find? (fun s => s.slug = slug) with
  | none => exact h
  | some sp =>
    show (selectedSlugs
      (if (st.selectedSprings.any fun s => decide (s.slug? = some slug)) = true
        then removeSpringFromTrip slug st
        else addSpringToTrip sp st).selectedSprings).Nodup
    by_cases hany : (st.selectedSprings.any fun s => decide (s.slug? = some slug)) = true
    · rw [if_pos hany]
      exact hrem
    · rw [if_neg hany]
      have hslug : sp.slug = slug := by
        have := List.find?_some hf
        simpa using this
      show (selectedSlugs (st.selectedSprings ++ [Stop.spring sp])).Nodup
      unfold selectedSlugs
      rw [List.filterMap_append]
      rw [List.nodup_append]
      refine ⟨h, by simp [List.filterMap_cons, Stop.slug?], ?_⟩
      intro x hx hx2
      simp only [List.filterMap_cons, List.filterMap_nil, Stop.slug?] at hx2
      rcases List.mem_singleton.mp hx2 with rfl
      obtain ⟨s, hsmem, hseq⟩ := List.mem_filterMap.mp hx
      rw [List.any_eq_true] at hany
      push_neg at hany
      exact absurd (show decide (s.slug? = some slug) = true by
        rw [decide_eq_true_iff]
        rw [hseq, hslug])
        (by simpa using hany s hsmem)

/-- Witness for the amended C8 on the two-spring session. -/
theorem toggle_remove_preserve_distinct_witness :
    (selectedSlugs exSt1.selectedSprings).Nodup ∧
    ((selectedSlugs (toggleSpring "a".toList exSt1).selectedSprings).Nodup ∧
      (selectedSlugs (removeSpringFromTrip "a".toList exSt1).selectedSprings).Nodup) :=
  ⟨by decide, toggle_remove_preserve_distinct exSt1 "a".toList (by decide)⟩

/-! ## C2 -/

/-- C2 amended: `loadSavedTrip` does apply the share token first, but a
present local save then overwrites both the selected sequence and the
start location unconditionally — the final trip state is the one resolved
from the local save, whatever the share token said.  The token prevails
only when no local save exists. -/
theorem loadSavedTrip_local_wins (url : ShareURL) (t : SavedTrip) (st : TripState) :
    (loadSavedTrip url (some t) st).selectedSprings =
      (t.springs.filterMap (fun o => o.bind (resolveSlug st.springs))).map Stop.spring ∧
    (loadSavedTrip url (some t) st).startLocation = t.startLocation := by
  unfold loadSavedTrip loadTripFromLocalStorage
  rw [parseURLParams_springs]
  exact ⟨rfl, rfl⟩

/-- C2 counterexample: with both a share token (trip "a", start (1,2)) and
a local save (trip "b", start (3,4)) present at session start, the final
trip state equals the local save, not the share token. -/
theorem loadSavedTrip_share_token_overridden :
    (loadSavedTrip exUrl2 (some exTrip2) exSt1).startLocation = some ⟨3, 4⟩ ∧
    (loadSavedTrip exUrl2 (some exTrip2) exSt1).selectedSprings = [Stop.spring exSpringB] ∧
    some (⟨3, 4⟩ : Coord) ≠ some (⟨1, 2⟩ : Coord) ∧
    [Stop.spring exSpringB] ≠ [Stop.spring exSpringA] := by
  refine ⟨rfl, rfl, ?_, ?_⟩
  · intro hc
    rw [Option.some.injEq, Coord.mk.injEq] at hc
    exact absurd hc.1 (by norm_num)
  · intro hl
    have h2 := congrArg (fun l => l.map Stop.slug?) hl
    simp only [List.map_cons, List.map_nil, Stop.slug?, exSpringA, exSpringB,
      List.cons.injEq, Option.some.injEq] at h2
    exact absurd h2.1 (by decide)

/-! ## C7 -/

/-- Selected springs whose slugs are `slugs` serialize (via
`s.slug ?? "undefined"`) to exactly `slugs`. -/
lemma map_slugD {l : List Stop} {slugs : List JStr}
    (h : l.map Stop.slug? = slugs.map some) :
    l.map (fun s => (s.slug?).getD ("undefined".toList)) = slugs := by
  induction l generalizing slugs with
  | nil =>
    cases slugs with
    | nil => rfl
    | cons g gs => simp at h
  | cons s t ih =>
    cases slugs with
    | nil => simp at h
    | cons g gs =>
      simp only [List.map_cons, List.cons.injEq] at h
      simp only [List.map_cons, List.cons.injEq]
      exact ⟨by rw [h.1]; rfl, ih h.2⟩

lemma joinComma_ne_nil {l : List JStr} (hne : l ≠ []) (h : ∀ x ∈ l, x ≠ []) :
    joinComma l ≠ [] := by
  cases l with
  | nil => exact absurd rfl hne
  | cons x xs =>
    cases xs with
    | nil => exact h x (List.mem_cons_self x [])
    | cons y ys => simp [joinComma]

/-- `parseURLParams` on a URL with both parameters non-empty and a
well-formed start pair. -/
lemma parseURLParams_eval (sp sq : JStr) (st : TripState) (la ln : ℚ)
    (hsp : ¬ sp = []) (hsq : ¬ sq = [])
    (hla : parseFloat ((splitComma sq).getD 0 []) = some la)
    (hln : parseFloat ((splitComma sq).getD 1 []) = some ln) :
    parseURLParams ⟨some sp, some sq⟩ st =
      { st with
        selectedSprings := ((splitComma sp).filterMap (resolveSlug st.springs)).map Stop.spring,
        startLocation := some ⟨la, ln⟩ } := by
  unfold parseURLParams
  dsimp only
  rw [if_neg hsp, if_neg hsq, hla, hln]

/-- `parseURLParams` on a URL whose springs parameter is empty (falsy). -/
lemma parseURLParams_eval_nosprings (sq : JStr) (st : TripState) (la ln : ℚ)
    (hsq : ¬ sq = [])
    (hla : parseFloat ((splitComma sq).getD 0 []) = some la)
    (hln : parseFloat ((splitComma sq).getD 1 []) = some ln) :
    parseURLParams ⟨some [], some sq⟩ st = { st with startLocation := some ⟨la, ln⟩ } := by
  unfold parseURLParams
  dsimp only
  rw [if_pos rfl, if_neg hsq, hla, hln]

/-- C7 amended: for a trip state whose waypoint identifiers are non-empty,
comma-free, and all resolve in the catalog, and whose start location is
set to a coordinate with a finite decimal expansion (every JS double has
one), decoding the generated share URL at session start (same catalog,
empty selection) restores exactly the same ordered identifier sequence and
exactly the same start coordinate (so in particular within any rounding
tolerance). -/
theorem share_roundtrip (st st2 : TripState) (c : Coord) (slugs : List JStr)
    (hsel : st.selectedSprings.map Stop.slug? = slugs.map some)
    (hres : ∀ g ∈ slugs, g ≠ [] ∧ ¬ (',' ∈ g) ∧ (resolveSlug st.springs g).isSome)
    (hstart : st.startLocation = some c)
    (hlat : ∃ k, (c.lat.den : ℕ) ∣ 10 ^ k)
    (hlng : ∃ k, (c.lng.den : ℕ) ∣ 10 ^ k)
    (hcat : st2.springs = st.springs)
    (hsel2 : st2.selectedSprings = []) :
    (parseURLParams (generateShareableURL st) st2).selectedSprings.map Stop.slug? =
      slugs.map some ∧
    (parseURLParams (generateShareableURL st) st2).startLocation = some c := by
  have hurl : generateShareableURL st =
      ⟨some (joinComma slugs), some (renderQ c.lat ++ ',' :: renderQ c.lng)⟩ := by
    unfold generateShareableURL
    rw [hstart, map_slugD hsel]
  have hparts : splitComma (renderQ c.lat ++ ',' :: renderQ c.lng) =
      [renderQ c.lat, renderQ c.lng] := by
    rw [splitComma_append (renderQ_no_comma c.lat),
      splitComma_no_comma (renderQ_no_comma c.lng)]
  have hsq : ¬ (renderQ c.lat ++ ',' :: renderQ c.lng) = [] := by simp
  have hla : parseFloat ((splitComma (renderQ c.lat ++ ',' :: renderQ c.lng)).getD 0 []) =
      some c.lat := by
    rw [hparts]
    exact parseFloat_renderQ c.lat hlat
  have hln : parseFloat ((splitComma (renderQ c.lat ++ ',' :: renderQ c.lng)).getD 1 []) =
      some c.lng := by
    rw [hparts]
    exact parseFloat_renderQ c.lng hlng
  rw [hurl]
  by_cases hsl : slugs = []
  · subst hsl
    rw [show joinComma [] = [] from rfl]
    rw [parseURLParams_eval_nosprings _ st2 c.lat c.lng hsq hla hln]
    exact ⟨by rw [hsel2]; rfl, rfl⟩
  · have hsp : ¬ joinComma slugs = [] :=
      joinComma_ne_nil hsl (fun x hx => (hres x hx).1)
    rw [parseURLParams_eval _ _ st2 c.lat c.lng hsp hsq hla hln]
    constructor
    · dsimp only
      rw [splitComma_joinComma hsl (fun x hx => (hres x hx).2.1), hcat]
      exact resolveList_slugs st.springs slugs (fun g hg => (hres g hg).2.2)
    · rfl

/-- Witness for the amended C7 on the Sol Duc trip. -/
theorem share_roundtrip_witness :
    exSt7w.selectedSprings.map Stop.slug? = ["sol-duc".toList].map some ∧
    (∀ g ∈ ["sol-duc".toList], g ≠ [] ∧ ¬ (',' ∈ g) ∧
      (resolveSlug exSt7w.springs g).isSome) ∧
    ((parseURLParams (generateShareableURL exSt7w) exSt7f).selectedSprings.map Stop.slug? =
        ["sol-duc".toList].map some ∧
      (parseURLParams (generateShareableURL exSt7w) exSt7f).startLocation =
        some ⟨47, -120⟩) := by
  refine ⟨rfl, ?_, ?_⟩
  · intro g hg
    rcases List.mem_singleton.mp hg with rfl
    exact ⟨by decide, by decide, rfl⟩
  · exact share_roundtrip exSt7w exSt7f ⟨47, -120⟩ ["sol-duc".toList] rfl
      (by
        intro g hg
        rcases List.mem_singleton.mp hg with rfl
        exact ⟨by decide, by decide, rfl⟩)
      rfl ⟨0, by norm_num⟩ ⟨0, by norm_num⟩ rfl rfl

/-- C7 counterexample: the identifier `"a,b"` resolves in the catalog, yet
decoding the URL generated for the trip `["a,b"]` yields the empty
selection — the comma inside the identifier is indistinguishable from the
list separator, so `decode (encode trip)` loses the waypoint. -/
theorem share_roundtrip_comma_counterexample :
    (resolveSlug exSt7c.springs "a,b".toList).isSome = true ∧
    exSt7c.selectedSprings.map Stop.slug? = [some "a,b".toList] ∧
    (parseURLParams (generateShareableURL exSt7c) exSt7c).selectedSprings = [] ∧
    exSt7c.selectedSprings ≠ [] := by
  exact ⟨rfl, rfl, rfl, by simp [exSt7c]⟩

end WaHot
